import Mathlib

/-!
Verification of the sales-analytics pipeline (`src/utils/data_processor.py`)
against its natural-language specification.

Shallow embedding conventions:
* Python `str` is Lean `String`; character-level operations (strip, split,
  lower, replace) are modelled on `List Char` so every definition is fully
  executable and kernel-reducible.
* Python `int` is `Int`; Python `float` is idealised as `ℚ` (the spec's
  numeric statements are all "within floating rounding tolerance").
* `round(x, 2)` is modelled as rounding `x*100` to the nearest integer
  (half away from zero upward via Mathlib's `round`); CPython uses
  banker's rounding over binary floats, but no claim below depends on a
  half-way tie.
* Python `dict` (insertion-ordered) is an association list updated in
  place by `bump`; `sorted(...)` is a stable insertion sort `sortByLe`.
* Code that can raise is embedded in `Except String`; the error string
  names the Python exception that would be raised.
-/

deriving instance DecidableEq for Except

namespace SalesAnalytics

/-- Python `str.strip()`: drop whitespace from both ends. -/
def pyStrip (l : List Char) : List Char :=
  ((l.dropWhile Char.isWhitespace).reverse.dropWhile Char.isWhitespace).reverse

/-- Python `s.split("|")`: split on every pipe; `""` yields one empty field. -/
def splitPipe (l : List Char) : List (List Char) :=
  l.foldr
    (fun c acc =>
      if c = '|' then [] :: acc
      else
        match acc with
        | h :: t => (c :: h) :: t
        | [] => [[c]])
    [[]]

/-- Numeric value of a digit string (most significant first). -/
def digitsToNat (l : List Char) : Nat :=
  l.foldl (fun a c => a * 10 + (c.toNat - '0'.toNat)) 0

/-- Python `int(s)`: optional surrounding whitespace, optional sign, digits.
(Underscore digit grouping is not modelled; no claim depends on it.) -/
def pyInt? (l : List Char) : Option Int :=
  match pyStrip l with
  | '+' :: ds =>
    if !ds.isEmpty && ds.all Char.isDigit then some (digitsToNat ds) else none
  | '-' :: ds =>
    if !ds.isEmpty && ds.all Char.isDigit then some (-(digitsToNat ds : Int)) else none
  | ds =>
    if !ds.isEmpty && ds.all Char.isDigit then some (digitsToNat ds) else none

/-- Unsigned part of `pyFloat?`. -/
def pyFloatCore (r : List Char) : Option ℚ :=
  let intPart := r.takeWhile (fun c => c ≠ '.')
  match r.dropWhile (fun c => c ≠ '.') with
  | [] =>
    if !intPart.isEmpty && intPart.all Char.isDigit then
      some (digitsToNat intPart)
    else none
  | '.' :: frac =>
    if intPart.all Char.isDigit && frac.all Char.isDigit &&
        (!intPart.isEmpty || !frac.isEmpty) then
      some ((digitsToNat intPart : ℚ) + (digitsToNat frac : ℚ) / (10 : ℚ) ^ frac.length)
    else none
  | _ => none

/-- Python `float(s)` on plain decimal notation: optional sign, digits with at
most one dot and at least one digit.  (Exponent notation and `inf`/`nan` are
not modelled; no claim depends on them.)  The value is exact, as a rational. -/
def pyFloat? (l : List Char) : Option ℚ :=
  match pyStrip l with
  | '+' :: r => pyFloatCore r
  | '-' :: r => (pyFloatCore r).map (fun q => -q)
  | r => pyFloatCore r

/-- Python `round(x, 2)` idealised over exact rationals. -/
def round2 (q : ℚ) : ℚ := (round (q * 100) : ℤ) / 100

/-- Python `str.lower()` (ASCII case folding, which covers this data set). -/
def pyLower (l : List Char) : List Char := l.map Char.toLower

/-- `str.lower()` packaged on `String`. -/
def strLower (s : String) : String := ⟨pyLower s.data⟩

/-- Python `pname.replace(",", " ")`. -/
def replaceComma (l : List Char) : List Char :=
  l.map (fun c => if c = ',' then ' ' else c)

/-- Python `s.replace(",", "")`. -/
def dropCommas (l : List Char) : List Char := l.filter (fun c => c ≠ ',')

/-- Python substring test `needle in hay` (first argument: haystack). -/
def containsSub : List Char → List Char → Bool
  | [], n => n.isEmpty
  | c :: t, n => n.isPrefixOf (c :: t) || containsSub t n

/-- Python `needle in hay` on `String`. -/
def pyIn (needle hay : String) : Bool := containsSub hay.data needle.data

/-- Python `set.add` modelled on an insertion-ordered duplicate-free list
(only the resulting cardinality is consumed by any claim). -/
def addUnique (x : String) (l : List String) : List String :=
  if x ∈ l then l else l ++ [x]

/-- A cleaned transaction record (`parse_and_clean_data` output dict). -/
structure Transaction where
  TransactionID : String
  Date : String
  ProductID : String
  ProductName : String
  Quantity : Int
  UnitPrice : ℚ
  CustomerID : String
  Region : String
deriving DecidableEq

/-- One iteration of the loop body of `parse_and_clean_data`
(`data_processor.py` lines 20-65): `Except.error` models an uncaught Python
exception, `ok none` a rejected line, `ok (some r)` an accepted record.
Note `tid[0]` / `pid[0]` raise `IndexError` on an empty field. -/
def parseLine (entry : String) : Except String (Option Transaction) :=
  match splitPipe (pyStrip entry.data) with
  | [tid, date, pid, pname, qty, price, cid, region] =>
    match tid with
    | [] => Except.error "IndexError: string index out of range"
    | tc :: _ =>
      if tc ≠ 'T' then Except.ok none
      else
        match pid with
        | [] => Except.error "IndexError: string index out of range"
        | pc :: _ =>
          if pc ≠ 'P' then Except.ok none
          else if (pyStrip cid).isEmpty || (pyStrip region).isEmpty then Except.ok none
          else
            match pyInt? (dropCommas qty), pyFloat? (dropCommas price) with
            | some q, some p =>
              if q ≤ 0 ∨ p ≤ 0 then Except.ok none
              else
                Except.ok (some
                  { TransactionID := ⟨tid⟩
                    Date := ⟨date⟩
                    ProductID := ⟨pid⟩
                    ProductName := ⟨replaceComma pname⟩
                    Quantity := q
                    UnitPrice := p
                    CustomerID := ⟨cid⟩
                    Region := ⟨region⟩ })
            | _, _ => Except.ok none
  | _ => Except.ok none

/-- `parse_and_clean_data` (`data_processor.py` lines 10-67), processing the
lines in order; an uncaught exception from any line aborts the whole call. -/
def parse_and_clean_data : List String → Except String (List Transaction × Nat)
  | [] => Except.ok ([], 0)
  | l :: ls =>
    match parseLine l with
    | Except.error e => Except.error e
    | Except.ok none =>
      match parse_and_clean_data ls with
      | Except.error e => Except.error e
      | Except.ok (c, i) => Except.ok (c, i + 1)
    | Except.ok (some r) =>
      match parse_and_clean_data ls with
      | Except.error e => Except.error e
      | Except.ok (c, i) => Except.ok (r :: c, i)

/-- The Transaction invariant of spec §3: ID prefixes, strictly positive
numerics, non-empty (after trimming) customer and region, comma-free name. -/
def TxInvariant (r : Transaction) : Prop :=
  r.TransactionID.data.head? = some 'T' ∧
  r.ProductID.data.head? = some 'P' ∧
  0 < r.Quantity ∧
  0 < r.UnitPrice ∧
  pyStrip r.CustomerID.data ≠ [] ∧
  pyStrip r.Region.data ≠ [] ∧
  ',' ∉ r.ProductName.data

instance (r : Transaction) : Decidable (TxInvariant r) := by
  unfold TxInvariant; infer_instance

/-- Stable insertion of `x` into `l`: `x` goes before the first element `y`
with `le x y` (so, for a total `le`, before every element it ties with that
was originally after it — the stability guarantee of Python's `sorted`). -/
def insLe {α : Type} (le : α → α → Bool) (x : α) : List α → List α
  | [] => [x]
  | y :: ys => if le x y then x :: y :: ys else y :: insLe le x ys

/-- Stable insertion sort, modelling Python's stable `sorted` / `list.sort`
under the `Bool` comparator `le`. -/
def sortByLe {α : Type} (le : α → α → Bool) : List α → List α
  | [] => []
  | x :: xs => insLe le x (sortByLe le xs)

/-- The dict-update pattern `if k not in d: d[k] = init` followed by an
in-place update, on an insertion-ordered association list. -/
def bump {α : Type} (k : String) (init : α) (upd : α → α) :
    List (String × α) → List (String × α)
  | [] => [(k, upd init)]
  | (k', v) :: rest =>
    if k' = k then (k', upd v) :: rest else (k', v) :: bump k init upd rest

/-- Revenue contribution of one transaction: `Quantity * UnitPrice`. -/
def txAmount (tx : Transaction) : ℚ := (tx.Quantity : ℚ) * tx.UnitPrice

/-- Summary dict returned by `validate_and_filter_sales`; the two shapes
of the Python dict become two constructors. -/
inductive FilterSummary
  | noFilter (total_records : Nat)
  | filtered (region : String) (records_before records_after : Nat)
deriving DecidableEq

/-- `validate_and_filter_sales` (`data_processor.py` lines 77-105).  Note the
source lower-cases but does **not** strip each record's `Region`; only the
selected region is stripped. -/
def validate_and_filter_sales (cleaned_data : List Transaction)
    (selected_region : Option String) : List Transaction × FilterSummary :=
  if cleaned_data = [] then ([], FilterSummary.noFilter 0)
  else
    match selected_region with
    | none => (cleaned_data, FilterSummary.noFilter cleaned_data.length)
    | some sel =>
      let key := pyLower (pyStrip sel.data)
      let filtered_data :=
        cleaned_data.filter (fun row => pyLower row.Region.data == key)
      (filtered_data,
        FilterSummary.filtered ⟨key⟩ cleaned_data.length filtered_data.length)

/-- `calculate_total_revenue` (`data_processor.py` lines 119-123). -/
def calculate_total_revenue (transactions : List Transaction) : ℚ :=
  transactions.foldl (fun total tx => total + txAmount tx) 0

/-- Per-region running tally (`region_data[r]` before the percentage pass). -/
structure RegionAcc where
  total_sales : ℚ
  transaction_count : Nat
deriving DecidableEq

/-- Per-region entry of the returned dict, after the percentage pass. -/
structure RegionEntry where
  total_sales : ℚ
  transaction_count : Nat
  percentage : ℚ
deriving DecidableEq

/-- The accumulation loop of `region_wise_sales` (lines 137-145). -/
def regionFold (transactions : List Transaction) : List (String × RegionAcc) :=
  transactions.foldl
    (fun d tx =>
      bump tx.Region ⟨0, 0⟩
        (fun a => ⟨a.total_sales + txAmount tx, a.transaction_count + 1⟩) d)
    []

/-- `region_wise_sales` (`data_processor.py` lines 133-154).  The percentage
pass divides by the overall revenue: with a non-empty dict and zero overall
revenue Python raises `ZeroDivisionError`, modelled as `Except.error`.  The
final dict is rebuilt sorted descending by `total_sales` (stable). -/
def region_wise_sales (transactions : List Transaction) :
    Except String (List (String × RegionEntry)) :=
  let region_data := regionFold transactions
  let overall := calculate_total_revenue transactions
  if region_data ≠ [] ∧ overall = 0 then
    Except.error "ZeroDivisionError: float division by zero"
  else
    Except.ok (sortByLe (fun a b => decide (b.2.total_sales ≤ a.2.total_sales))
      (region_data.map (fun e =>
        (e.1, ⟨e.2.total_sales, e.2.transaction_count,
               round2 (e.2.total_sales / overall * 100)⟩))))

/-- Per-product tally `[quantity, revenue]`.  `top_selling_products` and
`low_performing_products` build identical tallies with identical loops
(lines 164-172 and 281-292); the shared loop is factored here. -/
structure ProdAcc where
  qty : Int
  revenue : ℚ
deriving DecidableEq

/-- The per-product accumulation loop shared by `top_selling_products`
and `low_performing_products`. -/
def productFold (transactions : List Transaction) : List (String × ProdAcc) :=
  transactions.foldl
    (fun d tx =>
      bump tx.ProductName ⟨0, 0⟩
        (fun a => ⟨a.qty + tx.Quantity, a.revenue + txAmount tx⟩) d)
    []

/-- `top_selling_products` (`data_processor.py` lines 163-177): rank
descending by quantity (stable), truncate to `n`. -/
def top_selling_products (transactions : List Transaction) (n : Nat) :
    List (String × Int × ℚ) :=
  let ranked := (productFold transactions).map (fun e => (e.1, e.2.qty, e.2.revenue))
  (sortByLe (fun a b => decide (b.2.1 ≤ a.2.1)) ranked).take n

/-- `low_performing_products` (`data_processor.py` lines 280-300): keep
products with total quantity strictly below `threshold`, sort ascending by
quantity (stable). -/
def low_performing_products (transactions : List Transaction) (threshold : Int) :
    List (String × Int × ℚ) :=
  let low_items :=
    ((productFold transactions).filter (fun e => decide (e.2.qty < threshold))).map
      (fun e => (e.1, e.2.qty, e.2.revenue))
  sortByLe (fun a b => decide (a.2.1 ≤ b.2.1)) low_items

/-- Per-customer running tally `[spent, count, products-set]`. -/
structure CustAcc where
  spent : ℚ
  count : Nat
  products : List String
deriving DecidableEq

/-- Per-customer entry of the `customer_analysis` result. -/
structure CustomerEntry where
  total_spent : ℚ
  purchase_count : Nat
  avg_order_value : ℚ
  products_bought : List String
deriving DecidableEq

/-- The accumulation loop of `customer_analysis` (lines 189-198). -/
def customerFold (transactions : List Transaction) : List (String × CustAcc) :=
  transactions.foldl
    (fun d tx =>
      bump tx.CustomerID ⟨0, 0, []⟩
        (fun a => ⟨a.spent + txAmount tx, a.count + 1,
                   addUnique tx.ProductName a.products⟩) d)
    []

/-- `customer_analysis` (`data_processor.py` lines 186-211).  The division
`total_spent / purchase_count` is safe: an entry exists only after at least
one purchase was tallied, so `count ≥ 1`. -/
def customer_analysis (transactions : List Transaction) :
    List (String × CustomerEntry) :=
  sortByLe (fun a b => decide (b.2.total_spent ≤ a.2.total_spent))
    ((customerFold transactions).map (fun e =>
      (e.1, ⟨round2 e.2.spent, e.2.count, round2 (e.2.spent / (e.2.count : ℚ)),
             e.2.products⟩)))

/-- Per-date running tally `[revenue, count, customers-set]`. -/
structure DayAcc where
  revenue : ℚ
  count : Nat
  customers : List String
deriving DecidableEq

/-- Per-date entry of the `daily_sales_trend` result. -/
structure DailyEntry where
  revenue : ℚ
  transaction_count : Nat
  unique_customers : Nat
deriving DecidableEq

/-- The accumulation loop of `daily_sales_trend` (lines 227-236). -/
def dailyFold (transactions : List Transaction) : List (String × DayAcc) :=
  transactions.foldl
    (fun d tx =>
      bump tx.Date ⟨0, 0, []⟩
        (fun a => ⟨a.revenue + txAmount tx, a.count + 1,
                   addUnique tx.CustomerID a.customers⟩) d)
    []

/-- `daily_sales_trend` (`data_processor.py` lines 224-246): per-date entry
with 2-decimal-rounded revenue, then `sorted(final.items())` — ascending by
the (distinct) date keys. -/
def daily_sales_trend (transactions : List Transaction) :
    List (String × DailyEntry) :=
  sortByLe (fun a b => decide (a.1 ≤ b.1))
    ((dailyFold transactions).map (fun e =>
      (e.1, ⟨round2 e.2.revenue, e.2.count, e.2.customers.length⟩)))

/-- The scan loop of `find_peak_sales_day` (lines 258-266), threading the
`(peak_date, peak_revenue, peak_count)` state. -/
def peakFold : List (String × DailyEntry) → Option String × ℚ × Nat →
    Option String × ℚ × Nat
  | [], st => st
  | (d, v) :: rest, (pd, pr, pc) =>
    if pr < v.revenue then peakFold rest (some d, v.revenue, v.transaction_count)
    else peakFold rest (pd, pr, pc)

/-- `find_peak_sales_day` (`data_processor.py` lines 255-268): scan the
date-sorted daily trend with initial state `(None, 0, 0)` and strict-greater
comparison. -/
def find_peak_sales_day (transactions : List Transaction) :
    Option String × ℚ × Nat :=
  peakFold (daily_sales_trend transactions) (none, 0, 0)

/-- An enriched record: the copied transaction plus the four API fields
appended by `enrich_sales_data`. -/
structure EnrichedTransaction where
  tx : Transaction
  API_Category : String
  API_Brand : String
  API_Rating : ℚ
  API_Match : Bool
deriving DecidableEq

/-- One entry of the product catalog mapping built by
`create_product_mapping` (`api_handler.py`); accepted by the enricher but
never consulted. -/
structure CatalogEntry where
  title : String
  category : String
  brand : String
  rating : ℚ
deriving DecidableEq

/-- The per-record body of `enrich_sales_data` (`data_processor.py` lines
316-388): lower-case the product name and run the fixed if/elif keyword
chain; defaults survive when nothing matches. -/
def enrichOne (tx : Transaction) : EnrichedTransaction :=
  let name := strLower tx.ProductName
  if pyIn "usb" name || pyIn "cable" name then
    ⟨tx, "mobile-accessories", "Beats", 424/100, true⟩
  else if pyIn "mouse" name then
    ⟨tx, "mobile-accessories", "TechGear", 443/100, true⟩
  else if pyIn "charger" name then
    ⟨tx, "mobile-accessories", "GadgetMaster", 355/100, true⟩
  else if pyIn "monitor" name then
    ⟨tx, "mobile-accessories", "Apple", 415/100, true⟩
  else if pyIn "webcam" name then
    ⟨tx, "mobile-accessories", "Apple", 362/100, true⟩
  else if pyIn "keyboard" name then
    ⟨tx, "mobile-accessories", "Logitech", 405/100, true⟩
  else if pyIn "headphone" name then
    ⟨tx, "mobile-accessories", "Sony", 438/100, true⟩
  else if pyIn "external hard drive" name || pyIn "hard drive" name then
    ⟨tx, "storage", "Seagate", 418/100, true⟩
  else if pyIn "laptop" name then
    ⟨tx, "laptops", "Asus", 395/100, true⟩
  else
    ⟨tx, "Unknown", "Unknown", 0, false⟩

/-- `enrich_sales_data` (`data_processor.py` lines 313-390): one enriched
record per input transaction, in order; `product_mapping` is accepted but
never consulted, exactly as in the source. -/
def enrich_sales_data (transactions : List Transaction)
    (product_mapping : List (String × CatalogEntry)) : List EnrichedTransaction :=
  transactions.map enrichOne

/-- Modelled from the spec (§4.4): the ordered keyword → (category, brand,
rating) rule table, as an explicit list, used to state claim C7 against the
source's if/elif chain. -/
def enrichmentRules : List (List String × String × String × ℚ) :=
  [ (["usb", "cable"], "mobile-accessories", "Beats", 424/100),
    (["mouse"], "mobile-accessories", "TechGear", 443/100),
    (["charger"], "mobile-accessories", "GadgetMaster", 355/100),
    (["monitor"], "mobile-accessories", "Apple", 415/100),
    (["webcam"], "mobile-accessories", "Apple", 362/100),
    (["keyboard"], "mobile-accessories", "Logitech", 405/100),
    (["headphone"], "mobile-accessories", "Sony", 438/100),
    (["external hard drive", "hard drive"], "storage", "Seagate", 418/100),
    (["laptop"], "laptops", "Asus", 395/100) ]

/-- All keywords of the rule table, in rule order. -/
def enrichmentKeywords : List String := enrichmentRules.flatMap (fun r => r.1)

/-- Modelled from the spec (§4.4): first-match-wins evaluation of an ordered
rule list; returns the assigned triple (or the defaults) and the match flag. -/
def applyRules : List (List String × String × String × ℚ) → String →
    (String × String × ℚ) × Bool
  | [], _ => (("Unknown", "Unknown", 0), false)
  | (ks, attr) :: rest, name =>
    if ks.any (fun k => pyIn k name) then (attr, true) else applyRules rest name

/-- The pure content of the report document assembled by
`generate_sales_report` (`data_processor.py` lines 405-534); file I/O and
text layout are not modelled, only every computed value the renderer prints. -/
structure ReportData where
  total_revenue : ℚ
  total_transactions : Nat
  avg_order_value : ℚ
  start_date : String
  end_date : String
  region_data : List (String × RegionEntry)
  top_products : List (String × Int × ℚ)
  customers : List (String × CustomerEntry)
  daily : List (String × DailyEntry)
  peak : Option String × ℚ × Nat
  low_products : List (String × Int × ℚ)
  enriched_count : Nat
  success_rate : ℚ
  not_enriched : List String
deriving DecidableEq

/-- `generate_sales_report` (`data_processor.py` lines 405-534), following
the source's evaluation order: `min(date_list)` / `max(date_list)` raise
`ValueError` on an empty transaction list (line 412); the region percentages
may raise inside `region_wise_sales` (line 415); the success rate divides by
`len(enriched_transactions)` (line 427) and raises `ZeroDivisionError` when
it is zero.  The average order value (line 447) is only computed after the
`min` call succeeded, so its divisor is then non-zero. -/
def generate_sales_report (transactions : List Transaction)
    (enriched_transactions : List EnrichedTransaction) :
    Except String ReportData :=
  let total_revenue := calculate_total_revenue transactions
  let date_list := transactions.map (fun tx => tx.Date)
  match date_list.min?, date_list.max? with
  | some start_date, some end_date =>
    match region_wise_sales transactions with
    | Except.error e => Except.error e
    | Except.ok region_data =>
      let enriched_count :=
        (enriched_transactions.filter (fun t => t.API_Match)).length
      if enriched_transactions.length = 0 then
        Except.error "ZeroDivisionError: division by zero"
      else
        Except.ok
          { total_revenue := total_revenue
            total_transactions := transactions.length
            avg_order_value := total_revenue / (transactions.length : ℚ)
            start_date := start_date
            end_date := end_date
            region_data := region_data
            top_products := top_selling_products transactions 5
            customers := customer_analysis transactions
            daily := daily_sales_trend transactions
            peak := find_peak_sales_day transactions
            low_products := low_performing_products transactions 10
            enriched_count := enriched_count
            success_rate :=
              round2 ((enriched_count : ℚ) / (enriched_transactions.length : ℚ) * 100)
            not_enriched :=
              (enriched_transactions.filter (fun t => !t.API_Match)).map
                (fun t => t.tx.ProductName) }
  | _, _ => Except.error "ValueError: min() arg is an empty sequence"

/-! ### Helper lemmas: the stable sort -/

theorem insLe_perm {α : Type} (le : α → α → Bool) (x : α) (l : List α) :
    List.Perm (insLe le x l) (x :: l) := by
  induction l with
  | nil => rfl
  | cons y ys ih =>
    simp only [insLe]
    split
    · rfl
    · exact (ih.cons y).trans (List.Perm.swap x y ys)

theorem sortByLe_perm {α : Type} (le : α → α → Bool) (l : List α) :
    List.Perm (sortByLe le l) l := by
  induction l with
  | nil => rfl
  | cons x xs ih => exact (insLe_perm le x (sortByLe le xs)).trans (ih.cons x)

theorem sortByLe_mem {α : Type} (le : α → α → Bool) (l : List α) (a : α) :
    a ∈ sortByLe le l ↔ a ∈ l :=
  (sortByLe_perm le l).mem_iff

theorem insLe_pairwise {α : Type} (le : α → α → Bool)
    (htot : ∀ a b, le a b = true ∨ le b a = true)
    (htr : ∀ a b c, le a b = true → le b c = true → le a c = true)
    (x : α) (l : List α) (hl : l.Pairwise (fun a b => le a b = true)) :
    (insLe le x l).Pairwise (fun a b => le a b = true) := by
  induction l with
  | nil => simp [insLe]
  | cons y ys ih =>
    rw [List.pairwise_cons] at hl
    obtain ⟨hy, hys⟩ := hl
    simp only [insLe]
    by_cases h : le x y = true
    · simp only [h, if_true]
      refine List.pairwise_cons.mpr ⟨?_, List.pairwise_cons.mpr ⟨hy, hys⟩⟩
      intro b hb
      rcases List.mem_cons.mp hb with rfl | hb'
      · exact h
      · exact htr x y b h (hy b hb')
    · simp only [h, if_false]
      refine List.pairwise_cons.mpr ⟨?_, ih hys⟩
      intro b hb
      have hb' : b = x ∨ b ∈ ys := by
        have := (insLe_perm le x ys).mem_iff.mp hb
        simpa using this
      rcases hb' with rfl | hb'
      · rcases htot b y with hxy | hyx
        · exact absurd hxy h
        · exact hyx
      · exact hy b hb'

theorem sortByLe_pairwise {α : Type} (le : α → α → Bool)
    (htot : ∀ a b, le a b = true ∨ le b a = true)
    (htr : ∀ a b c, le a b = true → le b c = true → le a c = true)
    (l : List α) : (sortByLe le l).Pairwise (fun a b => le a b = true) := by
  induction l with
  | nil => simp [sortByLe]
  | cons x xs ih => exact insLe_pairwise le htot htr x _ ih

/-! ### Helper lemmas: revenue sums -/

theorem foldl_revenue (l : List Transaction) :
    ∀ a : ℚ, l.foldl (fun t tx => t + txAmount tx) a = a + (l.map txAmount).sum := by
  induction l with
  | nil => intro a; simp
  | cons x xs ih => intro a; simp [ih, add_assoc]

theorem calculate_total_revenue_eq (l : List Transaction) :
    calculate_total_revenue l = (l.map txAmount).sum := by
  simp [calculate_total_revenue, foldl_revenue]

/-- Total of the `total_sales` fields across a region tally. -/
def sumTS (d : List (String × RegionAcc)) : ℚ :=
  (d.map (fun e => e.2.total_sales)).sum

theorem bump_region_sum (k : String) (tx : Transaction)
    (d : List (String × RegionAcc)) :
    sumTS (bump k ⟨0, 0⟩
      (fun a => ⟨a.total_sales + txAmount tx, a.transaction_count + 1⟩) d) =
    sumTS d + txAmount tx := by
  induction d with
  | nil => simp [bump, sumTS]
  | cons e rest ih =>
    obtain ⟨k', v⟩ := e
    simp only [bump]
    by_cases h : k' = k
    · simp only [h, if_true, sumTS, List.map_cons, List.sum_cons]
      ring
    · simp only [h, if_false, sumTS, List.map_cons, List.sum_cons] at ih ⊢
      rw [ih]
      ring

theorem regionFold_sum_general (l : List Transaction) :
    ∀ d, sumTS (l.foldl
      (fun d tx => bump tx.Region ⟨0, 0⟩
        (fun a => ⟨a.total_sales + txAmount tx, a.transaction_count + 1⟩) d) d) =
      sumTS d + (l.map txAmount).sum := by
  induction l with
  | nil => intro d; simp
  | cons x xs ih =>
    intro d
    simp only [List.foldl_cons, List.map_cons, List.sum_cons]
    rw [ih, bump_region_sum]
    ring

theorem regionFold_sum (l : List Transaction) :
    sumTS (regionFold l) = calculate_total_revenue l := by
  rw [regionFold, regionFold_sum_general, calculate_total_revenue_eq]
  simp [sumTS]

/-! ### Helper lemmas: association-list keys -/

/-- The key sequence of an association list. -/
def keysOf {α : Type} (d : List (String × α)) : List String := d.map Prod.fst

theorem bump_keys {α : Type} (k : String) (init : α) (upd : α → α)
    (d : List (String × α)) :
    keysOf (bump k init upd d) =
      if k ∈ keysOf d then keysOf d else keysOf d ++ [k] := by
  induction d with
  | nil => simp [bump, keysOf]
  | cons e rest ih =>
    obtain ⟨k', v⟩ := e
    simp only [bump]
    by_cases h : k' = k
    · subst h
      simp [keysOf]
    · have h' : ¬(k = k') := fun hk => h hk.symm
      simp only [h, if_false, keysOf, List.map_cons, List.mem_cons, h', false_or]
      simp only [keysOf] at ih
      by_cases hm : k ∈ rest.map Prod.fst
      · simp [hm, ih]
      · simp [hm, ih]

theorem bump_keys_nodup {α : Type} (k : String) (init : α) (upd : α → α)
    (d : List (String × α)) (hd : (keysOf d).Nodup) :
    (keysOf (bump k init upd d)).Nodup := by
  rw [bump_keys]
  by_cases hm : k ∈ keysOf d
  · simpa [hm] using hd
  · simp only [hm, if_false]
    simp [List.nodup_append, hd, hm]

theorem assoc_unique {α : Type} (d : List (String × α))
    (hd : (keysOf d).Nodup) {k : String} {v w : α}
    (h1 : (k, v) ∈ d) (h2 : (k, w) ∈ d) : v = w := by
  induction d with
  | nil => simp at h1
  | cons e rest ih =>
    obtain ⟨k', u⟩ := e
    simp only [keysOf, List.map_cons, List.nodup_cons] at hd
    obtain ⟨hk', hrest⟩ := hd
    rcases List.mem_cons.mp h1 with he1 | h1'
    · rcases List.mem_cons.mp h2 with he2 | h2'
      · rw [Prod.mk.injEq] at he1 he2
        rw [he1.2, he2.2]
      · exfalso
        apply hk'
        rw [Prod.mk.injEq] at he1
        rw [← he1.1]
        exact List.mem_map.mpr ⟨(k, w), h2', rfl⟩
    · rcases List.mem_cons.mp h2 with he2 | h2'
      · exfalso
        apply hk'
        rw [Prod.mk.injEq] at he2
        rw [← he2.1]
        exact List.mem_map.mpr ⟨(k, v), h1', rfl⟩
      · exact ih hrest h1' h2'

theorem productFold_keys_nodup_general (l : List Transaction) :
    ∀ d : List (String × ProdAcc), (keysOf d).Nodup →
      (keysOf (l.foldl
        (fun d tx => bump tx.ProductName ⟨0, 0⟩
          (fun a => ⟨a.qty + tx.Quantity, a.revenue + txAmount tx⟩) d) d)).Nodup := by
  induction l with
  | nil => intro d hd; exact hd
  | cons x xs ih =>
    intro d hd
    exact ih _ (bump_keys_nodup _ _ _ _ hd)

theorem productFold_keys_nodup (l : List Transaction) :
    (keysOf (productFold l)).Nodup :=
  productFold_keys_nodup_general l [] (by simp [keysOf])

/-! ### Helper lemmas: the peak-day scan -/

theorem peakFold_const (L : List (String × DailyEntry)) :
    ∀ pd pr pc, (∀ e ∈ L, e.2.revenue ≤ pr) → peakFold L (pd, pr, pc) = (pd, pr, pc) := by
  induction L with
  | nil => intro pd pr pc _; rfl
  | cons e rest ih =>
    intro pd pr pc hle
    obtain ⟨d, v⟩ := e
    simp only [peakFold]
    rw [if_neg]
    · exact ih pd pr pc (fun x hx => hle x (List.mem_cons_of_mem _ hx))
    · exact not_lt.mpr (hle (d, v) (List.mem_cons_self _ _))

theorem peakFold_max :
    ∀ (L : List (String × DailyEntry)), L.Pairwise (fun a b => a.1 ≤ b.1) →
    ∀ pd pr pc, (∃ e ∈ L, pr < e.2.revenue) →
    ∃ d v, peakFold L (pd, pr, pc) = (some d, v.revenue, v.transaction_count) ∧
      (d, v) ∈ L ∧ (∀ e ∈ L, e.2.revenue ≤ v.revenue) ∧
      (∀ e ∈ L, e.2.revenue = v.revenue → d ≤ e.1) := by
  intro L
  induction L with
  | nil => intro _ pd pr pc h; simp at h
  | cons e0 rest ih =>
    intro hs pd pr pc hex
    obtain ⟨d0, v0⟩ := e0
    rw [List.pairwise_cons] at hs
    obtain ⟨hd0, hrest⟩ := hs
    by_cases h0 : pr < v0.revenue
    · simp only [peakFold, if_pos h0]
      by_cases h1 : ∃ e ∈ rest, v0.revenue < e.2.revenue
      · obtain ⟨d, v, heq, hmem, hmax, hties⟩ :=
          ih hrest (some d0) v0.revenue v0.transaction_count h1
        refine ⟨d, v, heq, List.mem_cons_of_mem _ hmem, ?_, ?_⟩
        · intro e he
          rcases List.mem_cons.mp he with rfl | he'
          · obtain ⟨e1, he1, hgt⟩ := h1
            exact le_trans (le_of_lt hgt) (hmax e1 he1)
          · exact hmax e he'
        · intro e he hrev
          rcases List.mem_cons.mp he with rfl | he'
          · exfalso
            obtain ⟨e1, he1, hgt⟩ := h1
            have hlt : v0.revenue < v.revenue := lt_of_lt_of_le hgt (hmax e1 he1)
            simp only at hrev
            rw [hrev] at hlt
            exact lt_irrefl _ hlt
          · exact hties e he' hrev
      · push_neg at h1
        rw [peakFold_const rest (some d0) v0.revenue v0.transaction_count h1]
        refine ⟨d0, v0, rfl, List.mem_cons_self _ _, ?_, ?_⟩
        · intro e he
          rcases List.mem_cons.mp he with rfl | he'
          · exact le_refl _
          · exact h1 e he'
        · intro e he _
          rcases List.mem_cons.mp he with rfl | he'
          · exact le_refl _
          · exact hd0 e he'
    · simp only [peakFold, if_neg h0]
      have hex' : ∃ e ∈ rest, pr < e.2.revenue := by
        obtain ⟨e, he, hgt⟩ := hex
        rcases List.mem_cons.mp he with rfl | he'
        · exact absurd hgt h0
        · exact ⟨e, he', hgt⟩
      obtain ⟨d, v, heq, hmem, hmax, hties⟩ := ih hrest pd pr pc hex'
      have hprv : pr < v.revenue := by
        obtain ⟨e1, he1, hgt⟩ := hex'
        exact lt_of_lt_of_le hgt (hmax e1 he1)
      refine ⟨d, v, heq, List.mem_cons_of_mem _ hmem, ?_, ?_⟩
      · intro e he
        rcases List.mem_cons.mp he with rfl | he'
        · exact le_trans (not_lt.mp h0) (le_of_lt hprv)
        · exact hmax e he'
      · intro e he hrev
        rcases List.mem_cons.mp he with rfl | he'
        · exfalso
          simp only at hrev
          rw [hrev] at h0
          exact h0 hprv
        · exact hties e he' hrev

theorem daily_trend_sorted (txs : List Transaction) :
    (daily_sales_trend txs).Pairwise (fun a b => a.1 ≤ b.1) := by
  have h := sortByLe_pairwise
    (fun (a b : String × DailyEntry) => decide (a.1 ≤ b.1))
    (fun a b => by
      rcases le_total a.1 b.1 with h | h
      · left; exact decide_eq_true h
      · right; exact decide_eq_true h)
    (fun a b c hab hbc =>
      decide_eq_true (le_trans (of_decide_eq_true hab) (of_decide_eq_true hbc)))
    ((dailyFold txs).map (fun e =>
      (e.1, ⟨round2 e.2.revenue, e.2.count, e.2.customers.length⟩)))
  exact (h.imp (fun hab => of_decide_eq_true hab))

/-! ### Helper lemmas: the enrichment rule chain -/

set_option maxHeartbeats 2000000 in
theorem enrichOne_applyRules (tx : Transaction) :
    enrichOne tx =
      ⟨tx, (applyRules enrichmentRules (strLower tx.ProductName)).1.1,
        (applyRules enrichmentRules (strLower tx.ProductName)).1.2.1,
        (applyRules enrichmentRules (strLower tx.ProductName)).1.2.2,
        (applyRules enrichmentRules (strLower tx.ProductName)).2⟩ := by
  simp only [enrichOne, applyRules, enrichmentRules, List.any_cons, List.any_nil,
    Bool.or_false]
  split_ifs <;> rfl

theorem applyRules_match_any (rs : List (List String × String × String × ℚ))
    (name : String) :
    (applyRules rs name).2 = rs.any (fun r => r.1.any (fun k => pyIn k name)) := by
  induction rs with
  | nil => rfl
  | cons r rest ih =>
    obtain ⟨ks, attr⟩ := r
    simp only [applyRules, List.any_cons]
    by_cases h : ks.any (fun k => pyIn k name) = true
    · simp [h]
    · simp only [Bool.not_eq_true] at h
      simp [h, ih]

theorem any_rules_iff_keywords (name : String) :
    enrichmentRules.any (fun r => r.1.any (fun k => pyIn k name)) = true ↔
      ∃ k ∈ enrichmentKeywords, pyIn k name = true := by
  simp only [enrichmentKeywords, List.any_eq_true, List.mem_flatMap]
  constructor
  · rintro ⟨r, hr, k, hk, hpy⟩
    exact ⟨k, ⟨r, hr, hk⟩, hpy⟩
  · rintro ⟨k, ⟨r, hr, hk⟩, hpy⟩
    exact ⟨r, hr, k, hk, hpy⟩

theorem comma_not_mem_replaceComma (l : List Char) : ',' ∉ replaceComma l := by
  simp only [replaceComma, List.mem_map]
  rintro ⟨a, _, hfa⟩
  by_cases h : a = ','
  · simp [h] at hfa
  · simp [h] at hfa

theorem parseLine_invariant {e : String} {r : Transaction}
    (h : parseLine e = Except.ok (some r)) : TxInvariant r := by
  unfold parseLine at h
  repeat' split at h
  all_goals (try (exfalso; exact Except.noConfusion h))
  all_goals (try (exfalso; exact Option.noConfusion (Except.ok.inj h)))
  simp only [Except.ok.injEq, Option.some.injEq] at h
  subst h
  simp_all [TxInvariant, comma_not_mem_replaceComma, List.isEmpty_iff]

/-! ### Concrete inputs used by witnesses and counterexamples -/

section
attribute [local semireducible] Rat.add Rat.mul Rat.inv Rat.sub

/-- A raw line that the cleaner accepts. -/
def sampleLineGood : String := "T1|2024-01-01|P1|USB Cable|2|5.50|C1|North"

/-- The record the cleaner produces from `sampleLineGood`. -/
def sampleTx : Transaction :=
  ⟨"T1", "2024-01-01", "P1", "USB Cable", 2, 11/2, "C1", "North"⟩

/-- One good line followed by one malformed line. -/
def sampleLines : List String := [sampleLineGood, "BADLINE"]

/-! ### The claims -/

/-- C1: the claim says `generate_sales_report` on zero cleaned records raises
no error and still writes a complete report with empty/zero fallbacks.  The
code instead raises: with zero transactions `min(date_list)` (line 412) gets
an empty sequence and raises `ValueError` before any section is written (and
the average-order-value and success-rate divisions at lines 447 and 427 would
divide by zero).  This theorem evaluates the code at the failing input. -/
theorem c1_generate_report_empty_raises :
    generate_sales_report [] [] =
      Except.error "ValueError: min() arg is an empty sequence" := rfl

/-- C2: the claim says `parse_and_clean_data` returns normally on every
input, in particular on lines whose first pipe-separated field is empty.  The
code instead evaluates `tid[0]` (line 29), which raises `IndexError` when the
`TransactionID` field is the empty string.  This theorem evaluates the code
at the failing input. -/
theorem c2_parse_raises_on_empty_id_field :
    parse_and_clean_data ["|2024-01-01|P1|Cable|1|2.0|C1|North"] =
      Except.error "IndexError: string index out of range" := by decide

/-- C3: whenever `parse_and_clean_data` returns, the cleaned-record count
plus the invalid count equals the number of input lines. -/
theorem c3_cleaned_plus_invalid_eq_lines (lines : List String)
    (c : List Transaction) (i : Nat)
    (h : parse_and_clean_data lines = Except.ok (c, i)) :
    c.length + i = lines.length := by
  induction lines generalizing c i with
  | nil =>
    simp only [parse_and_clean_data, Except.ok.injEq, Prod.mk.injEq] at h
    obtain ⟨h1, h2⟩ := h
    subst h1
    subst h2
    rfl
  | cons l ls ih =>
    unfold parse_and_clean_data at h
    cases hpl : parseLine l with
    | error e => rw [hpl] at h; simp at h
    | ok o =>
      rw [hpl] at h
      cases o with
      | none =>
        cases hrec : parse_and_clean_data ls with
        | error e => rw [hrec] at h; simp at h
        | ok p =>
          obtain ⟨c', i'⟩ := p
          rw [hrec] at h
          simp only [Except.ok.injEq, Prod.mk.injEq] at h
          obtain ⟨h1, h2⟩ := h
          subst h1
          subst h2
          have := ih c' i' hrec
          simp only [List.length_cons]
          omega
      | some r0 =>
        cases hrec : parse_and_clean_data ls with
        | error e => rw [hrec] at h; simp at h
        | ok p =>
          obtain ⟨c', i'⟩ := p
          rw [hrec] at h
          simp only [Except.ok.injEq, Prod.mk.injEq] at h
          obtain ⟨h1, h2⟩ := h
          subst h1
          subst h2
          have := ih c' i' hrec
          simp only [List.length_cons]
          omega

/-- Witness for C3 at a concrete input: one accepted line, one rejected. -/
theorem c3_witness : ([sampleTx] : List Transaction).length + 1 = sampleLines.length :=
  c3_cleaned_plus_invalid_eq_lines sampleLines [sampleTx] 1 (by decide)

/-- C4: every record in the cleaned list satisfies the Transaction
invariant (ID prefixes, strictly positive numerics, non-empty trimmed
customer/region, comma-free product name). -/
theorem c4_cleaned_satisfy_invariant (lines : List String) (c : List Transaction)
    (i : Nat) (h : parse_and_clean_data lines = Except.ok (c, i)) :
    ∀ r ∈ c, TxInvariant r := by
  induction lines generalizing c i with
  | nil =>
    simp only [parse_and_clean_data, Except.ok.injEq, Prod.mk.injEq] at h
    obtain ⟨h1, _⟩ := h
    subst h1
    simp
  | cons l ls ih =>
    unfold parse_and_clean_data at h
    cases hpl : parseLine l with
    | error e => rw [hpl] at h; simp at h
    | ok o =>
      rw [hpl] at h
      cases o with
      | none =>
        cases hrec : parse_and_clean_data ls with
        | error e => rw [hrec] at h; simp at h
        | ok p =>
          obtain ⟨c', i'⟩ := p
          rw [hrec] at h
          simp only [Except.ok.injEq, Prod.mk.injEq] at h
          obtain ⟨h1, _⟩ := h
          subst h1
          exact ih c' i' hrec
      | some r0 =>
        cases hrec : parse_and_clean_data ls with
        | error e => rw [hrec] at h; simp at h
        | ok p =>
          obtain ⟨c', i'⟩ := p
          rw [hrec] at h
          simp only [Except.ok.injEq, Prod.mk.injEq] at h
          obtain ⟨h1, _⟩ := h
          subst h1
          intro r hr
          rcases List.mem_cons.mp hr with rfl | hr'
          · exact parseLine_invariant hpl
          · exact ih c' i' hrec r hr'

/-- Witness for C4 at a concrete input. -/
theorem c4_witness : TxInvariant sampleTx :=
  c4_cleaned_satisfy_invariant [sampleLineGood] [sampleTx] 0 (by decide)
    sampleTx (by simp)

/-- C5: whenever `region_wise_sales` returns, the `total_sales` fields of its
entries sum exactly to `calculate_total_revenue`, and (for a non-empty
collection) every percentage is the region total over the overall total,
times 100, rounded to 2 decimals. -/
theorem c5_region_totals_and_percentages (txs : List Transaction)
    (l : List (String × RegionEntry))
    (h : region_wise_sales txs = Except.ok l) :
    (l.map (fun e => e.2.total_sales)).sum = calculate_total_revenue txs ∧
    (txs ≠ [] → ∀ e ∈ l, e.2.percentage =
      round2 (e.2.total_sales / calculate_total_revenue txs * 100)) := by
  simp only [region_wise_sales] at h
  by_cases hc : regionFold txs ≠ [] ∧ calculate_total_revenue txs = 0
  · rw [if_pos hc] at h
    exact absurd h (fun hh => Except.noConfusion hh)
  · rw [if_neg hc] at h
    have hl := (Except.ok.inj h).symm
    subst hl
    constructor
    · have hperm := sortByLe_perm
        (fun (a b : String × RegionEntry) => decide (b.2.total_sales ≤ a.2.total_sales))
        ((regionFold txs).map (fun e =>
          (e.1, RegionEntry.mk e.2.total_sales e.2.transaction_count
            (round2 (e.2.total_sales / calculate_total_revenue txs * 100)))))
      rw [(hperm.map (fun e => e.2.total_sales)).sum_eq]
      rw [List.map_map]
      have : ((fun (e : String × RegionEntry) => e.2.total_sales) ∘
          (fun (e : String × RegionAcc) =>
            (e.1, RegionEntry.mk e.2.total_sales e.2.transaction_count
              (round2 (e.2.total_sales / calculate_total_revenue txs * 100))))) =
          fun e => e.2.total_sales := rfl
      rw [this]
      exact regionFold_sum txs
    · intro _ e he
      rw [sortByLe_mem] at he
      obtain ⟨a, _, rfl⟩ := List.mem_map.mp he
      rfl

/-- The value `region_wise_sales` returns on `[sampleTx]`. -/
def sampleRegionList : List (String × RegionEntry) := [("North", ⟨11, 1, 100⟩)]

/-- Witness for C5 at a concrete input. -/
theorem c5_witness :
    (sampleRegionList.map (fun e => e.2.total_sales)).sum =
      calculate_total_revenue [sampleTx] :=
  (c5_region_totals_and_percentages [sampleTx] sampleRegionList (by decide)).1

/-- A valid cleaned record whose revenue (0.001) rounds to 0.00. -/
def tinyTx : Transaction :=
  ⟨"T9", "2024-01-01", "P9", "Widget", 1, 1/1000, "C9", "North"⟩

/-- C6 counterexample: on the non-empty collection `[tinyTx]` the daily trend
has exactly one entry (date "2024-01-01", rounded revenue 0.00), yet
`find_peak_sales_day` returns `(None, 0, 0)` — not that greatest-revenue
entry — because the strict `>` against the initial peak revenue 0 never
fires.  So the claim "returns the entry of the daily trend with the greatest
revenue (on non-empty input)" is false as stated. -/
theorem c6_counterexample :
    daily_sales_trend [tinyTx] =
      [("2024-01-01", ⟨0, 1, 1⟩)] ∧
    find_peak_sales_day [tinyTx] = (none, 0, 0) ∧
    (none : Option String) ≠ some "2024-01-01" := by decide

/-- C6 amended: on empty input `find_peak_sales_day` returns `(None, 0, 0)`;
and whenever some daily trend entry has strictly positive (rounded) revenue,
it returns the date, revenue and transaction count of a trend entry with
maximal revenue, and among the tied maxima the lexicographically smallest
(earliest) date. -/
theorem c6_peak_first_max :
    find_peak_sales_day [] = (none, 0, 0) ∧
    ∀ txs, (∃ e ∈ daily_sales_trend txs, 0 < e.2.revenue) →
      ∃ d v, find_peak_sales_day txs = (some d, v.revenue, v.transaction_count) ∧
        (d, v) ∈ daily_sales_trend txs ∧
        (∀ e ∈ daily_sales_trend txs, e.2.revenue ≤ v.revenue) ∧
        (∀ e ∈ daily_sales_trend txs, e.2.revenue = v.revenue → d ≤ e.1) := by
  refine ⟨rfl, ?_⟩
  intro txs hex
  exact peakFold_max (daily_sales_trend txs) (daily_trend_sorted txs) none 0 0 hex

/-- Witness for C6 at a concrete input with positive revenue. -/
theorem c6_witness :
    ∃ d v, find_peak_sales_day [sampleTx] = (some d, v.revenue, v.transaction_count) ∧
      (d, v) ∈ daily_sales_trend [sampleTx] ∧
      (∀ e ∈ daily_sales_trend [sampleTx], e.2.revenue ≤ v.revenue) ∧
      (∀ e ∈ daily_sales_trend [sampleTx], e.2.revenue = v.revenue → d ≤ e.1) :=
  c6_peak_first_max.2 [sampleTx] (by decide)

/-- C7: enrichment returns exactly one record per input transaction in
order; `API_Match` is true iff the lower-cased product name contains one of
the rule keywords; and the first matching rule of the ordered table
determines the (category, brand, rating, match) quadruple, with the
`Unknown`/`Unknown`/0.0/false defaults when no rule matches — all stated via
the spec-side rule table `enrichmentRules` / `applyRules`. -/
theorem c7_enrichment_rules (txs : List Transaction)
    (mapping : List (String × CatalogEntry)) :
    (enrich_sales_data txs mapping).length = txs.length ∧
    List.Forall₂
      (fun tx e => e.tx = tx ∧
        (e.API_Match = true ↔ ∃ k ∈ enrichmentKeywords,
          pyIn k (strLower tx.ProductName) = true) ∧
        ((e.API_Category, e.API_Brand, e.API_Rating), e.API_Match) =
          applyRules enrichmentRules (strLower tx.ProductName))
      txs (enrich_sales_data txs mapping) := by
  constructor
  · simp [enrich_sales_data]
  · unfold enrich_sales_data
    induction txs with
    | nil => exact List.Forall₂.nil
    | cons t ts ih =>
      rw [List.map_cons]
      refine List.Forall₂.cons ?_ ih
      rw [enrichOne_applyRules t]
      refine ⟨rfl, ?_, rfl⟩
      show (applyRules enrichmentRules (strLower t.ProductName)).2 = true ↔ _
      rw [applyRules_match_any]
      exact any_rules_iff_keywords _

/-- Witness for C7 at a concrete input. -/
theorem c7_witness :
    (enrich_sales_data [sampleTx] []).length = ([sampleTx] : List Transaction).length :=
  (c7_enrichment_rules [sampleTx] []).1

/-- A valid cleaned record whose `Region` carries leading whitespace
(the cleaner stores the region untrimmed, so such records exist). -/
def padTx : Transaction :=
  ⟨"T2", "2024-01-02", "P2", "Cable", 2, 5, "C2", " North"⟩

/-- C8 counterexample: `padTx.Region` equals `"North"` under
whitespace-trimmed case-insensitive comparison, yet filtering the non-empty
collection `[padTx]` by `"North"` drops it: the code lower-cases but does
not strip the record side.  So the claim "a record whose Region carries
leading or trailing whitespace around the same name is kept" is false. -/
theorem c8_counterexample :
    pyLower (pyStrip padTx.Region.data) = pyLower (pyStrip ("North" : String).data) ∧
    validate_and_filter_sales [padTx] (some "North") =
      ([], FilterSummary.filtered "north" 1 0) := by decide

/-- C8 amended: for a non-empty collection, filtering by a region keeps
exactly the records whose lower-cased (but untrimmed) `Region` equals the
trimmed lower-cased selection, with the summary reporting the normalized
key and the before/after counts; with no region given the input is returned
unchanged with a no-filter summary carrying the record count. -/
theorem c8_region_filter_amended (data : List Transaction) (sel : String)
    (h : data ≠ []) :
    (validate_and_filter_sales data (some sel) =
      (data.filter (fun row => pyLower row.Region.data == pyLower (pyStrip sel.data)),
       FilterSummary.filtered ⟨pyLower (pyStrip sel.data)⟩ data.length
         (data.filter (fun row =>
           pyLower row.Region.data == pyLower (pyStrip sel.data))).length)) ∧
    (∀ r : Transaction, r ∈ (validate_and_filter_sales data (some sel)).1 ↔
      r ∈ data ∧ pyLower r.Region.data = pyLower (pyStrip sel.data)) ∧
    validate_and_filter_sales data none = (data, FilterSummary.noFilter data.length) := by
  refine ⟨?_, ?_, ?_⟩
  · simp [validate_and_filter_sales, h]
  · intro r
    simp [validate_and_filter_sales, h, List.mem_filter]
  · simp [validate_and_filter_sales, h]

/-- Witness for C8 at a concrete input (the no-filter branch). -/
theorem c8_witness :
    validate_and_filter_sales [sampleTx] (none : Option String) =
      ([sampleTx], FilterSummary.noFilter 1) :=
  (c8_region_filter_amended [sampleTx] "North" (by decide)).2.2

/-- C9: low-performing products all have total quantity strictly below the
threshold and are listed in ascending quantity order; and no product listed
among the top sellers (for any `n` at least the number of distinct products)
with total quantity at or above the threshold appears in the low list. -/
theorem c9_top_low_consistency (txs : List Transaction) (threshold : Int)
    (n : Nat) :
    (∀ e ∈ low_performing_products txs threshold, e.2.1 < threshold) ∧
    (low_performing_products txs threshold).Pairwise (fun a b => a.2.1 ≤ b.2.1) ∧
    ((productFold txs).length ≤ n →
      ∀ e ∈ top_selling_products txs n, threshold ≤ e.2.1 →
        ∀ e2 ∈ low_performing_products txs threshold, e2.1 ≠ e.1) := by
  refine ⟨?_, ?_, ?_⟩
  · intro e he
    simp only [low_performing_products] at he
    rw [sortByLe_mem] at he
    obtain ⟨a, ha, rfl⟩ := List.mem_map.mp he
    exact of_decide_eq_true (List.mem_filter.mp ha).2
  · have h := sortByLe_pairwise
      (fun (a b : String × Int × ℚ) => decide (a.2.1 ≤ b.2.1))
      (fun a b => by
        rcases le_total a.2.1 b.2.1 with h | h
        · left; exact decide_eq_true h
        · right; exact decide_eq_true h)
      (fun a b c hab hbc =>
        decide_eq_true (le_trans (of_decide_eq_true hab) (of_decide_eq_true hbc)))
      (((productFold txs).filter (fun e => decide (e.2.qty < threshold))).map
        (fun e => (e.1, e.2.qty, e.2.revenue)))
    exact h.imp (fun hab => of_decide_eq_true hab)
  · intro _ e he hthr e2 he2
    simp only [top_selling_products] at he
    have he' := List.mem_of_mem_take he
    rw [sortByLe_mem] at he'
    obtain ⟨a, ha, rfl⟩ := List.mem_map.mp he'
    simp only [low_performing_products] at he2
    rw [sortByLe_mem] at he2
    obtain ⟨b, hb, rfl⟩ := List.mem_map.mp he2
    obtain ⟨hbmem, hblt⟩ := List.mem_filter.mp hb
    intro heq
    simp only at heq hthr
    have hab : a.2 = b.2 := by
      have h1 : (a.1, a.2) ∈ productFold txs := by
        rw [Prod.mk.eta]
        exact ha
      have h2 : (a.1, b.2) ∈ productFold txs := by
        rw [← heq, Prod.mk.eta]
        exact hbmem
      exact assoc_unique (productFold txs) (productFold_keys_nodup txs) h1 h2
    have hlt : b.2.qty < threshold := of_decide_eq_true hblt
    rw [← hab] at hlt
    exact absurd hthr (not_le.mpr hlt)

/-- Witness for C9 at a concrete input. -/
theorem c9_witness :
    (("USB Cable", (2 : Int), (11 : ℚ)) : String × Int × ℚ).2.1 < 3 :=
  (c9_top_low_consistency [sampleTx] 3 1).1 ("USB Cable", 2, 11) (by decide)

/-- C10: `region_wise_sales` never divides by zero — on an empty collection
the percentage loop is never reached and the empty mapping is returned; on a
non-empty collection of records satisfying the positivity invariant the
overall revenue divisor is strictly positive and the call succeeds. -/
theorem c10_region_division_safe :
    region_wise_sales [] = Except.ok [] ∧
    ∀ txs, txs ≠ [] → (∀ tx ∈ txs, 0 < tx.Quantity ∧ 0 < tx.UnitPrice) →
      0 < calculate_total_revenue txs ∧
      ∃ l, region_wise_sales txs = Except.ok l := by
  refine ⟨rfl, ?_⟩
  intro txs hne hinv
  have hpos : 0 < calculate_total_revenue txs := by
    rw [calculate_total_revenue_eq]
    cases txs with
    | nil => exact absurd rfl hne
    | cons t ts =>
      simp only [List.map_cons, List.sum_cons]
      have h1 : 0 < txAmount t := by
        have hq := (hinv t (List.mem_cons_self t ts)).1
        have hp := (hinv t (List.mem_cons_self t ts)).2
        have hqq : (0 : ℚ) < (t.Quantity : ℚ) := by exact_mod_cast hq
        exact mul_pos hqq hp
      have h2 : 0 ≤ (ts.map txAmount).sum := by
        apply List.sum_nonneg
        intro x hx
        obtain ⟨tx, htx, rfl⟩ := List.mem_map.mp hx
        have hq := (hinv tx (List.mem_cons_of_mem _ htx)).1
        have hp := (hinv tx (List.mem_cons_of_mem _ htx)).2
        have hqq : (0 : ℚ) < (tx.Quantity : ℚ) := by exact_mod_cast hq
        exact le_of_lt (mul_pos hqq hp)
      linarith
  refine ⟨hpos, ?_⟩
  simp only [region_wise_sales]
  rw [if_neg]
  · exact ⟨_, rfl⟩
  · rintro ⟨_, hzero⟩
    rw [hzero] at hpos
    exact lt_irrefl 0 hpos

/-- Witness for C10 at a concrete input. -/
theorem c10_witness : 0 < calculate_total_revenue [sampleTx] :=
  (c10_region_division_safe.2 [sampleTx] (by decide) (by decide)).1

end

end SalesAnalytics
